import Mathlib

/-!
A verification development for a streaming LTL (linear temporal logic)
evaluation engine.  The engine compiles LTL expressions into incremental
matchers that consume a stream of tokens one at a time; after each token
the matcher reports an environment (match status, possibly bindings,
references, captures or an error) together with a continuation operator
(`none` once the matcher has terminated).

The definitions below are a shallow embedding of the engine:
  * tokens (`Tok`, mirroring the rune tokens used by the engine's hosts,
    plus an end-of-input token),
  * bound values and bindings (`BoundValue`, sorted lists of bound values,
    with `Combine`/`Satisfy`/equality mirroring pkg/bindings),
  * captures (`Captures`, mirroring pkg/captures),
  * environments (`Env`, with `state` mirroring ltl.State, `err` mirroring
    the error environment, `leaf` mirroring bindingenvironment.BindingNode
    and `binary` mirroring bindingenvironment.binaryNode),
  * the environment algebra (`andE`, `orE`, `notE`, `applyB`, `mergeEnv`,
    mirroring the and/or/Not/applyBindings/merge functions of
    pkg/bindingenvironment, and the dispatching `EnvAnd`/`EnvOr`/`EnvNot`
    mirroring the `And`/`Or`/`Not` methods of the Environment interface),
  * operators (`Op`) with their smart constructors and the single-step
    `MatchOp` function mirroring the `Match` methods of pkg/operators,
    pkg/binder and the string matcher example, and
  * the expression parser (`parseLTL`), mirroring the goyacc grammar of
    pkg/parser at the token level.

The Go environment algebra recurses through values rather than structure
(`and` calls `applyBindings`, which calls `and` on rebuilt children), so
those functions take an explicit fuel argument here; with sufficient fuel
they compute exactly what the Go functions compute, and running out of
fuel yields a sentinel error environment.
-/

namespace LtlGo

/-- A token.  The engine is parametric over tokens; hosts supply rune
tokens carrying a character and an index (examples/runetoken), and tokens
answer an end-of-input predicate `EOI`.  Rune tokens are never
end-of-input; the `eoi` constructor models a host token whose `EOI` is
true. -/
inductive Tok where
  | rune (c : Char) (index : Nat)
  | eoi
  deriving DecidableEq, Repr

/-- `Token.EOI()`: true only for end-of-input tokens. -/
def Tok.EOI : Tok → Bool
  | .rune _ _ => false
  | .eoi => true

/-- A bound value's payload: the engine ships string-valued
(bindings.boundString) and int-valued (bindings.boundInt) bound values;
values of different types are incomparable. -/
inductive BVal where
  | str (s : String)
  | int (n : Int)
  deriving DecidableEq, Repr

/-- Lexicographic comparison of character lists (the order
`strings.Compare` uses). -/
def charListCompare : List Char → List Char → Ordering
  | [], [] => .eq
  | [], _ :: _ => .lt
  | _ :: _, [] => .gt
  | a :: as, b :: bs =>
    if a < b then .lt else if b < a then .gt else charListCompare as bs

/-- `strings.Compare` on the underlying character lists. -/
def strCompare (a b : String) : Ordering :=
  charListCompare a.data b.data

/-- `CompareValues`: <0, 0, >0 as the receiver's value compares less
than, equal to or greater than the argument's; an error if the two are
of different value types.  String values compare like `strings.Compare`
(yielding -1, 0 or 1), int values by difference. -/
def BVal.compareValues : BVal → BVal → Except String Int
  | .str a, .str b =>
    .ok (match strCompare a b with | .lt => -1 | .eq => 0 | .gt => 1)
  | .int a, .int b => .ok (a - b)
  | _, _ => .error "BoundValue type mismatch"

/-- A value bound to a string key (bindings.BoundValue). -/
structure BoundValue where
  key : String
  value : BVal
  deriving DecidableEq, Repr

/-- Bindings: a set of bound values stored by increasing key.  A nil
`*Bindings` in Go is the empty list here. -/
abbrev Bindings := List BoundValue

/-- `Bindings.Eq`: same length, same keys, and values comparing equal
(values of different types compare as unequal). -/
def eqB : Bindings → Bindings → Bool
  | [], [] => true
  | b :: bs, o :: os =>
    b.key == o.key &&
    (match b.value.compareValues o.value with
     | .ok c => c == 0
     | .error _ => false) &&
    eqB bs os
  | _, _ => false

/-- The merge loop of `Bindings.Combine`: keywise union of two sorted
binding lists, erroring if a key appears in both with differing (or
incomparable) values.  The first argument is structural fuel; the
wrapper supplies enough for the whole merge (every step consumes an
element), so the loop computes exactly what the Go loop computes. -/
def combineLoop : Nat → Bindings → Bindings → Except String Bindings
  | 0, _, _ => .error "insufficient fuel"
  | _ + 1, [], obs => .ok obs
  | _ + 1, bs, [] => .ok bs
  | f + 1, b :: bs, o :: os =>
    match strCompare b.key o.key with
    | .lt => do pure (b :: (← combineLoop f bs (o :: os)))
    | .gt => do pure (o :: (← combineLoop f (b :: bs) os))
    | .eq =>
      match b.value.compareValues o.value with
      | .error e => .error e
      | .ok c =>
        if c ≠ 0 then .error ("Key " ++ b.key ++ " conflicts")
        else do pure (b :: (← combineLoop f bs os))

/-- `Bindings.Combine`, with the Go fast paths: an empty receiver or a
receiver equal to the argument yields the argument, an empty argument
yields the receiver. -/
def Combine (b ob : Bindings) : Except String Bindings :=
  if b.isEmpty || eqB b ob then .ok ob
  else if ob.isEmpty then .ok b
  else combineLoop (b.length + ob.length + 1) b ob

/-- The loop of `Bindings.Satisfy`: the relative complement of the
argument in the receiver, plus a flag that is false if some key bound in
both binds differing (or incomparable) values.  As with `combineLoop`,
the first argument is structural fuel that the wrapper supplies in full. -/
def satisfyLoop : Nat → Bindings → Bindings → Bindings × Bool
  | 0, _, _ => ([], false)
  | _ + 1, [], _ => ([], true)
  | _ + 1, bs, [] => (bs, true)
  | f + 1, b :: bs, o :: os =>
    match strCompare b.key o.key with
    | .lt =>
      let r := satisfyLoop f bs (o :: os)
      if r.2 then (b :: r.1, true) else ([], false)
    | .gt => satisfyLoop f (b :: bs) os
    | .eq =>
      match b.value.compareValues o.value with
      | .error _ => ([], false)
      | .ok c => if c ≠ 0 then ([], false) else satisfyLoop f bs os

/-- `Bindings.Satisfy`, with the Go fast paths: either side empty returns
the receiver satisfied; equal sides return empty satisfied. -/
def Satisfy (b ob : Bindings) : Bindings × Bool :=
  if b.isEmpty || ob.isEmpty then (b, true)
  else if eqB b ob then ([], true)
  else satisfyLoop (b.length + ob.length + 1) b ob

/-- Captures (pkg/captures): two sets of captured tokens, one captured
when the owning environment matches and one when it does not.  The Go
sets are modeled as duplicate-free lists. -/
structure Captures where
  pos : List Tok
  neg : List Tok
  deriving DecidableEq, Repr

/-- The empty captures set (both a nil `*Captures` and `captures.New()`). -/
def Captures.empty : Captures := ⟨[], []⟩

/-- The set of tokens captured under the given matching state. -/
def Captures.get (c : Captures) (matching : Bool) : List Tok :=
  if matching then c.pos else c.neg

/-- Set union of two token lists (Go unions the underlying maps). -/
def unionToks (a b : List Tok) : List Tok :=
  a ++ b.filter (fun t => ¬ a.contains t)

/-- `Captures.Union`. -/
def Captures.union (c oc : Captures) : Captures :=
  ⟨unionToks c.pos oc.pos, unionToks c.neg oc.neg⟩

/-- `Captures.Not`: swaps the matching and non-matching capture sets. -/
def Captures.inv (c : Captures) : Captures := ⟨c.neg, c.pos⟩

/-- `Captures.Reducible`: no captured tokens at all. -/
def Captures.Reducible (c : Captures) : Bool :=
  c.pos.isEmpty && c.neg.isEmpty

/-- `Captures.Capture(matching, tok)` on a fresh captures set. -/
def capOf (matching : Bool) (t : Tok) : Captures :=
  if matching then ⟨[t], []⟩ else ⟨[], [t]⟩

/-- The andNode kind tag of bindingenvironment.binaryNode. -/
def andNode : Bool := false

/-- The orNode kind tag of bindingenvironment.binaryNode. -/
def orNode : Bool := true

/-- An environment, the closed union of the engine's Environment
implementations:
  * `state` is ltl.State (Matching / NotMatching),
  * `err` is the ltl error environment (ltl.ErrEnv),
  * `leaf` is bindingenvironment.BindingNode (fields matching, caps,
    bound, referenced),
  * `binary` is bindingenvironment.binaryNode (fields t, bound, left,
    right, hasRefs, matching, where t is `andNode` or `orNode`). -/
inductive Env where
  | state (b : Bool)
  | err (msg : String)
  | leaf (matching : Bool) (caps : Captures) (bound referenced : Bindings)
  | binary (t : Bool) (bound : Bindings) (left right : Env)
      (hasRefs matching : Bool)
  deriving DecidableEq, Repr

/-- `Environment.Matching()`.  A BindingNode with references never
matches; a binaryNode reports its rolled-up matching field; an error
environment never matches. -/
def Env.Matching : Env → Bool
  | .state b => b
  | .err _ => false
  | .leaf matching _ _ referenced => if referenced.length > 0 then false else matching
  | .binary _ _ _ _ _ matching => matching

/-- `Environment.Err()`. -/
def Env.Err : Env → Option String
  | .err msg => some msg
  | _ => none

/-- `Environment.Reducible()`: States and error environments are always
reducible, a BindingNode is reducible when it has no bound values,
references or captures, and a binaryNode never is. -/
def Env.Reducible : Env → Bool
  | .state _ => true
  | .err _ => true
  | .leaf _ caps bound referenced =>
    bound.length == 0 && referenced.length == 0 && caps.Reducible
  | .binary _ _ _ _ _ _ => false

/-- `bindingenvironment.Bindings(env)`: the bindings bound by an
environment.  A BindingNode provides its bound values only when
matching; a binaryNode provides its rolled-up bound field; other
environments provide none. -/
def envBindings : Env → Bindings
  | .leaf matching _ bound referenced =>
    if referenced.length > 0 then [] else if matching then bound else []
  | .binary _ bound _ _ _ _ => bound
  | _ => []

/-- `hasReferences(env)`: a BindingNode has references when its
referenced bindings are non-empty; a binaryNode reports its rolled-up
hasRefs field. -/
def hasReferences : Env → Bool
  | .leaf _ _ _ referenced => referenced.length > 0
  | .binary _ _ _ _ hasRefs _ => hasRefs
  | _ => false

/-- `ltl.EitherErroring`: the first erroring argument, if any. -/
def EitherErroring (a b : Env) : Option Env :=
  if a.Err.isSome then some a
  else if b.Err.isSome then some b
  else none

/-- `ltl.Reduce`: if one side is reducible with the given match status,
the other side. -/
def Reduce (left right : Env) (matching : Bool) : Option Env :=
  if left.Reducible && left.Matching == matching then some right
  else if right.Reducible && right.Matching == matching then some left
  else none

/-- `merge`: structural unification of two environments that agree up to
captures (bindingenvironment's BindingNode.merge and binaryNode.merge,
dispatched through the package-level helper, which yields no merge when
the receiver is not a binding environment). -/
def mergeEnv : Env → Env → Option Env
  | .leaf m c b r, .leaf m' c' b' r' =>
    if m == m' && eqB b b' && eqB r r' then
      some (.leaf m (c.union c') b r)
    else none
  | .binary t bnd l r hr m, .binary t' bnd' l' r' hr' m' =>
    if t == t' && m == m' && hr == hr' && eqB bnd bnd' then
      match mergeEnv l l', mergeEnv r r' with
      | some nl, some nr => some (.binary t bnd nl nr hr m)
      | _, _ =>
        match mergeEnv l r', mergeEnv r l' with
        | some nl, some nr => some (.binary t bnd nl nr hr m)
        | _, _ => none
    else none
  | _, _ => none

/-- The out-of-fuel sentinel for the fuel-bounded environment algebra. -/
def fuelErr : Env := .err "insufficient fuel"

mutual

/-- `bindingenvironment.and(left, right)`: an erroring side wins; a side
that is reducible and matching yields the other side; otherwise the two
sides' bindings are combined (a conflict errors), applied back to each
side, and the sides are merged if possible, else an AND binaryNode is
built with rolled-up bindings, references and matching. -/
def andE : Nat → Env → Env → Env
  | 0, _, _ => fuelErr
  | f + 1, l, r =>
    match EitherErroring l r with
    | some e => e
    | none =>
      match Reduce l r true with
      | some red => red
      | none =>
        match Combine (envBindings l) (envBindings r) with
        | .error e => .err e
        | .ok newB =>
          let l' := applyB f newB l
          let r' := applyB f newB r
          match mergeEnv l' r' with
          | some m => m
          | none =>
            let hasRefs := hasReferences l' || hasReferences r'
            let matching := if hasRefs then false
                            else l'.Matching && r'.Matching
            .binary andNode newB l' r' hasRefs matching

/-- `bindingenvironment.or(left, right)`: dual to `andE`, with the
reducible-and-not-matching side dropped and OR matching roll-up. -/
def orE : Nat → Env → Env → Env
  | 0, _, _ => fuelErr
  | f + 1, l, r =>
    match EitherErroring l r with
    | some e => e
    | none =>
      match Reduce l r false with
      | some red => red
      | none =>
        match Combine (envBindings l) (envBindings r) with
        | .error e => .err e
        | .ok newB =>
          let l' := applyB f newB l
          let r' := applyB f newB r
          match mergeEnv l' r' with
          | some m => m
          | none =>
            let hasRefs := hasReferences l' || hasReferences r'
            let matching := if hasRefs then false
                            else l'.Matching || r'.Matching
            .binary orNode newB l' r' hasRefs matching

/-- `applyBindings(b, env)` (package-level dispatch plus the BindingNode
and binaryNode methods): non-binding environments pass through; a
BindingNode combines its bound values with the argument (errors
propagate) and satisfies its references against the result, inverting
its matching state (and dropping the references) if they cannot be
satisfied; a binaryNode recurses on its children and rebuilds through
`andE`/`orE`. -/
def applyB : Nat → Bindings → Env → Env
  | 0, _, _ => fuelErr
  | _ + 1, _, .state s => .state s
  | _ + 1, _, .err m => .err m
  | _ + 1, b, .leaf matching caps bound referenced =>
    if b.isEmpty then .leaf matching caps bound referenced
    else
      match Combine bound b with
      | .error e => .err e
      | .ok newB =>
        if referenced.isEmpty then
          if eqB bound newB then .leaf matching caps bound referenced
          else .leaf matching caps newB []
        else
          match Satisfy referenced newB with
          | (newR, true) => .leaf matching caps newB newR
          | (_, false) => .leaf (!matching) caps.inv newB []
  | f + 1, b, .binary t _ l r _ _ =>
    if t == orNode then orE f (applyB f b l) (applyB f b r)
    else andE f (applyB f b l) (applyB f b r)

end

/-- `Environment.Not()`: a State flips; an error environment returns
itself; a BindingNode flips its matching state and its captures'
polarity, keeping bound and referenced values; a binaryNode rebuilds by
De Morgan through `andE`/`orE`. -/
def notE : Nat → Env → Env
  | 0, _ => fuelErr
  | _ + 1, .state b => .state !b
  | _ + 1, .err m => .err m
  | _ + 1, .leaf matching caps bound referenced =>
    .leaf (!matching) caps.inv bound referenced
  | f + 1, .binary t _ l r _ _ =>
    if t == orNode then andE f (notE f l) (notE f r)
    else orE f (notE f l) (notE f r)

/-- The `And` method dispatch: an error environment absorbs; `State.And`
delegates to the argument's `And` (receiver and argument swapped) unless
the argument is also a State; binding environments use `andE` with the
receiver first. -/
def EnvAnd (f : Nat) (l r : Env) : Env :=
  match l with
  | .err m => .err m
  | .state s =>
    if r.Err.isSome then r
    else
      match r with
      | .state t => if s then .state t else .state false
      | _ => andE f r (.state s)
  | _ => andE f l r

/-- The `Or` method dispatch, mirroring `EnvAnd`. -/
def EnvOr (f : Nat) (l r : Env) : Env :=
  match l with
  | .err m => .err m
  | .state s =>
    match EitherErroring (.state s) r with
    | some e => e
    | none =>
      match r with
      | .state t => if t then .state t else .state s
      | _ => orE f r (.state s)
  | _ => orE f l r

/-- A host-supplied binding extraction function (binder.extractFunc):
pulls named bindings out of a token, or fails. -/
abbrev ExtractFn := String → Tok → Except String Bindings

/-- The extraction function of the string matcher example's Generator:
binds the name to the token's rune rendered as a string; fails on a
token that is not a rune token. -/
def smExtract : ExtractFn := fun name tok =>
  match tok with
  | .rune c _ => .ok [⟨name, .str (String.singleton c)⟩]
  | .eoi => .error "failed to make Bindings: require RuneToken"

/-- An operator: a node of an LTL expression tree.  The combinators
mirror pkg/operators (`not`, `and`, `or`, `limit`, `next`,
`andEnvironment`, `orEnvironment`, `thenOp` for Then, `eventually`,
`globally`, `untilOp` for Until, `release`); the terminals mirror the
string matcher example (`sm`, carrying its remaining pattern and capture
flag) and pkg/binder (`binder` and `referencer`, carrying their name and
capture flag; the extraction function is a parameter of `MatchOp`). -/
inductive Op where
  | not (child : Op)
  | and (left right : Op)
  | or (left right : Op)
  | limit (n : Int) (child : Op)
  | next (child : Op)
  | andEnvironment (env : Env) (child : Op)
  | orEnvironment (env : Env) (child : Op)
  | thenOp (left right : Op)
  | eventually (child : Op)
  | globally (child : Op)
  | untilOp (left right : Op)
  | release (left right : Op)
  | sm (s : String) (capture : Bool)
  | binder (name : String) (capture : Bool)
  | referencer (name : String) (capture : Bool)
  deriving DecidableEq, Repr

/-- `Operator.Reducible()`: string matchers report true, binders and
referencers false; operators embedding UnaryOperator report their
child's reducibility and those embedding BinaryOperator the disjunction
of their children's. -/
def ReducibleOp : Op → Bool
  | .not c | .limit _ c | .next c | .andEnvironment _ c | .orEnvironment _ c
  | .eventually c | .globally c => ReducibleOp c
  | .and l r | .or l r | .thenOp l r | .untilOp l r | .release l r =>
    ReducibleOp l || ReducibleOp r
  | .sm _ _ => true
  | .binder _ _ => false
  | .referencer _ _ => false

/-- `ltl.Reducible(op)`: nil operators are always reducible. -/
def ReducibleOpt : Option Op → Bool
  | none => true
  | some op => ReducibleOp op

/-- `operators.Not` smart constructor: nil child yields nil. -/
def Not : Option Op → Option Op
  | none => none
  | some c => some (.not c)

/-- `operators.And` smart constructor: a nil side yields the other. -/
def And : Option Op → Option Op → Option Op
  | none, r => r
  | some l, none => some l
  | some l, some r => some (.and l r)

/-- `operators.Or` smart constructor: a nil side yields the other. -/
def Or : Option Op → Option Op → Option Op
  | none, r => r
  | some l, none => some l
  | some l, some r => some (.or l r)

/-- `operators.Limit` smart constructor: a zero bound or nil child
yields nil. -/
def Limit (n : Int) : Option Op → Option Op
  | none => none
  | some c => if n = 0 then none else some (.limit n c)

/-- `operators.Next` smart constructor: nil child yields nil. -/
def Next : Option Op → Option Op
  | none => none
  | some c => some (.next c)

/-- `operators.AndEnvironment` smart constructor: nil child yields nil;
a reducible, matching held environment collapses to the child. -/
def AndEnvironment (env : Env) : Option Op → Option Op
  | none => none
  | some child =>
    if env.Reducible && env.Matching then some child
    else some (.andEnvironment env child)

/-- `operators.OrEnvironment` smart constructor: nil child yields nil; a
reducible, non-matching held environment collapses to the child. -/
def OrEnvironment (env : Env) : Option Op → Option Op
  | none => none
  | some child =>
    if env.Reducible && !env.Matching then some child
    else some (.orEnvironment env child)

/-- `operators.Then` smart constructor: a nil side yields nil. -/
def Then : Option Op → Option Op → Option Op
  | some l, some r => some (.thenOp l r)
  | _, _ => none

/-- `operators.Eventually` smart constructor: nil child yields nil. -/
def Eventually : Option Op → Option Op
  | none => none
  | some c => some (.eventually c)

/-- `operators.Until` smart constructor: a nil left side yields the
right side; a nil right side yields nil. -/
def Until : Option Op → Option Op → Option Op
  | none, r => r
  | some _, none => none
  | some l, some r => some (.untilOp l r)

/-- `operators.Globally`.  The Go constructor performs no nil check and
wraps a nil child, producing an operator that cannot be stepped; that
degenerate wrapper is folded to nil here, and no claim concerns it. -/
def Globally : Option Op → Option Op
  | none => none
  | some c => some (.globally c)

/-- `operators.Release`.  The Go constructor performs no nil check; as
with `Globally`, the un-steppable wrappers of nil children are folded to
nil here. -/
def Release : Option Op → Option Op → Option Op
  | some l, some r => some (.release l r)
  | _, _ => none

/-- The post-match half of `operators.StopAtFirstMatch`: nil the
returned operator whenever the returned environment is matching. -/
def stopAtFirstMatch (p : Option Op × Env) : Option Op × Env :=
  if p.2.Matching then (none, p.2) else p

/-- The half of `or.Match` after `MatchBoth`: an erroring child
environment terminates with that environment; otherwise the continuation
is `Or` of the children's continuations and the environment is the OR of
the children's environments (left receiver). -/
def orCombine (f : Nat) (lres rres : Option Op × Env) : Option Op × Env :=
  match EitherErroring lres.2 rres.2 with
  | some e => (none, e)
  | none => (Or lres.1 rres.1, EnvOr f lres.2 rres.2)

/-- The half of `then.Match` after matching the left child: while the
left child continues, so does the Then; when it terminates, its final
environment is deferred against the right child via `AndEnvironment` and
the step reports NotMatching. -/
def thenCombine (lres : Option Op × Env) (right : Op) : Option Op × Env :=
  match lres with
  | (some o, env) => (Then (some o) (some right), env)
  | (none, env) => (AndEnvironment env (some right), .state false)

/-- The half of `not.Match` after matching the child. -/
def notCombine (f : Nat) (p : Option Op × Env) : Option Op × Env :=
  (Not p.1, notE f p.2)

/-- `stringMatcher.Match` (examples/stringmatcher, with the default
case-insensitive configuration; the stored pattern is kept lowercased by
its constructor).  An exhausted pattern or an end-of-input token
terminates without matching; a leading `.` consumes any token; otherwise
the token's rune, lowercased, must be a prefix of the pattern.  The
returned environment matches exactly when the pattern is fully consumed,
and captures the token under the environment's matching state when
capturing is on. -/
def smMatch (s : String) (cap : Bool) : Tok → Option Op × Env
  | .eoi => (none, .leaf false .empty [] [])
  | .rune c i =>
    match s.data with
    | [] => (none, .leaf false .empty [] [])
    | p :: rest =>
      let step : Bool × List Char :=
        if p = '.' then (true, rest)
        else if p = c.toLower then (rest.isEmpty, rest)
        else (false, [])
      let env : Env :=
        .leaf step.1 (if cap then capOf step.1 (.rune c i) else .empty) [] []
      match step.2 with
      | [] => (none, env)
      | rem => (some (.sm (String.mk rem) cap), env)

/-- `binder.Match`: an end-of-input token terminates with a non-matching
BindingNode; otherwise the extraction function supplies bindings (its
error becomes an error environment) and the step terminates with a
matching BindingNode bound to them, capturing the token when capturing
is on. -/
def binderMatch (ext : ExtractFn) (name : String) (cap : Bool) (tok : Tok) :
    Option Op × Env :=
  if tok.EOI then (none, .leaf false .empty [] [])
  else
    match ext name tok with
    | .error e => (none, .err e)
    | .ok bs =>
      (none, .leaf true (if cap then capOf true tok else .empty) bs [])

/-- `referencer.Match`: an end-of-input token terminates with
NotMatching; otherwise the extraction function supplies bindings and the
step terminates with a BindingNode referencing them (such a node never
matches), capturing the token when capturing is on. -/
def refMatch (ext : ExtractFn) (name : String) (cap : Bool) (tok : Tok) :
    Option Op × Env :=
  if tok.EOI then (none, .state false)
  else
    match ext name tok with
    | .error e => (none, .err e)
    | .ok bs =>
      (none, .leaf true (if cap then capOf true tok else .empty) [] bs)

/-- The single-step `Match` of the operator algebra (pkg/operators),
parameterized by the binding extraction function and by the fuel of the
environment algebra.  The self-referential temporal operators step the
operator the Go code builds on the fly: `eventually e` steps
`Or(e.Child, Next(e))`, `untilOp l r` steps `Or(r, Then(l, u))` and
`release l r` steps `Not(Until(Not(l), Not(r)))`, in each case to first
match; those built operators' single-step behavior is spelled out here
through `orCombine`/`thenCombine`/`notCombine` (theorems below replay
the built-operator equations). -/
def MatchOp (ext : ExtractFn) (f : Nat) : Op → Tok → Option Op × Env
  | .sm s cap, tok => smMatch s cap tok
  | .binder name cap, tok => binderMatch ext name cap tok
  | .referencer name cap, tok => refMatch ext name cap tok
  | .not c, tok => notCombine f (MatchOp ext f c tok)
  | .and l r, tok =>
    let lres := MatchOp ext f l tok
    let rres := MatchOp ext f r tok
    match EitherErroring lres.2 rres.2 with
    | some e => (none, e)
    | none =>
      let newEnv := EnvAnd f lres.2 rres.2
      match lres.1 with
      | none => (AndEnvironment lres.2 rres.1, newEnv)
      | some nlo =>
        match rres.1 with
        | none => (AndEnvironment rres.2 (some nlo), newEnv)
        | some nro => (some (.and nlo nro), newEnv)
  | .or l r, tok => orCombine f (MatchOp ext f l tok) (MatchOp ext f r tok)
  | .limit n c, tok =>
    if n = 0 then (none, .state false)
    else
      let res := MatchOp ext f c tok
      (Limit (n - 1) res.1, res.2)
  | .next c, _ => (some c, .state false)
  | .andEnvironment env c, tok =>
    if !env.Matching && ReducibleOp c then (none, env)
    else
      let res := MatchOp ext f c tok
      (AndEnvironment env res.1, EnvAnd f env res.2)
  | .orEnvironment env c, tok =>
    let res := MatchOp ext f c tok
    (OrEnvironment env res.1, EnvOr f res.2 env)
  | .thenOp l r, tok => thenCombine (MatchOp ext f l tok) r
  | .eventually c, tok =>
    stopAtFirstMatch (orCombine f (MatchOp ext f c tok)
      (some (.eventually c), .state false))
  | .untilOp l r, tok =>
    stopAtFirstMatch (orCombine f (MatchOp ext f r tok)
      (thenCombine (MatchOp ext f l tok) (.untilOp l r)))
  | .globally c, tok =>
    let res := MatchOp ext f c tok
    match res.1 with
    | none => if !res.2.Matching then (none, res.2) else (some (.globally c), res.2)
    | some o => (Or (some o) (Then (some o) (some (.globally c))), res.2)
  | .release l r, tok =>
    notCombine f (stopAtFirstMatch (orCombine f
      (notCombine f (MatchOp ext f r tok))
      (thenCombine (notCombine f (MatchOp ext f l tok))
        (.untilOp (.not l) (.not r)))))

/-- `ltl.Match(op, tok)`: nil-safe match; a nil operator yields
`(nil, NotMatching)`. -/
def MatchN (ext : ExtractFn) (f : Nat) (op : Option Op) (tok : Tok) :
    Option Op × Env :=
  match op with
  | none => (none, .state false)
  | some o => MatchOp ext f o tok

/-- Feeding a token stream to an operator, one token at a time, keeping
the final continuation and environment (the drivers in the engine's
tests and REPL step this way). -/
def runToks (ext : ExtractFn) (f : Nat) :
    Option Op → List Tok → Option Op × Env
  | op, [] => (op, .state false)
  | op, t :: rest =>
    let res := MatchN ext f op t
    match rest with
    | [] => res
    | _ => runToks ext f res.1 rest

/-- A parser token (the terminals of parser.y): matcher literals carry
the operator returned by the host's matcher generator, numeric literals
carry their value, and the remaining constructors are the grammar's
keyword and parenthesis tokens. -/
inductive PTok where
  | MATCHER (op : Op)
  | NUM (n : Int)
  | LPAREN
  | RPAREN
  | LIMIT
  | GLOBALLY
  | EVENTUALLY
  | UNTIL
  | RELEASE
  | THEN
  | SEQUENCE
  | OR
  | AND
  | NEXT
  | NOT
  deriving DecidableEq, Repr

/-- The precedence level of each operator token, from the declaration
order of parser.y (yacc declares precedence from lowest to highest:
LIMIT; GLOBALLY; EVENTUALLY; UNTIL and RELEASE; THEN and SEQUENCE; OR
and AND; NEXT and NOT). -/
def tokPrec : PTok → Nat
  | .LIMIT => 1
  | .GLOBALLY => 2
  | .EVENTUALLY => 3
  | .UNTIL | .RELEASE => 4
  | .THEN | .SEQUENCE => 5
  | .OR | .AND => 6
  | .NEXT | .NOT => 7
  | _ => 0

/-- The infix productions of parser.y (`expr OR expr` and so on) as a
map from token to semantic action and precedence; SEQUENCE, though it
has a declared precedence, has no production and so is absent. -/
def binFor : PTok → Option ((Option Op → Option Op → Option Op) × Nat)
  | .OR => some (Or, 6)
  | .AND => some (And, 6)
  | .UNTIL => some (Until, 4)
  | .RELEASE => some (Release, 4)
  | .THEN => some (Then, 5)
  | _ => none

mutual

/-- Precedence climbing equivalent to the LALR tables goyacc builds from
parser.y: parse one primary (a matcher literal, parenthesized
expression, or prefix operator applied to an operand extending as far as
the prefix operator's precedence allows), then extend with infix and
postfix operators through `parseLoop`.  Prefix operands stop before
operator tokens of no higher precedence (yacc reduces the prefix rule
there), so NOT and NEXT (level 7) take minimal operands while EVENTUALLY
(level 3) and GLOBALLY (level 2) take maximal ones.  `none` is a syntax
error. -/
def parseExpr : Nat → Nat → List PTok → Option (Option Op × List PTok)
  | 0, _, _ => none
  | f + 1, minPrec, ts =>
    match ts with
    | .MATCHER m :: rest => parseLoop f minPrec (some m) rest
    | .LPAREN :: rest =>
      match parseExpr f 0 rest with
      | some (e, .RPAREN :: rest') => parseLoop f minPrec e rest'
      | _ => none
    | .NOT :: rest =>
      match parseExpr f 8 rest with
      | some (e, r) => parseLoop f minPrec (Not e) r
      | none => none
    | .NEXT :: rest =>
      match parseExpr f 8 rest with
      | some (e, r) => parseLoop f minPrec (Next e) r
      | none => none
    | .EVENTUALLY :: rest =>
      match parseExpr f 4 rest with
      | some (e, r) => parseLoop f minPrec (Eventually e) r
      | none => none
    | .GLOBALLY :: rest =>
      match parseExpr f 3 rest with
      | some (e, r) => parseLoop f minPrec (Globally e) r
      | none => none
    | _ => none

/-- The infix/postfix extension loop: consume an infix operator whose
precedence is at least the current minimum (left-associatively: its
right operand is parsed one level tighter), or the postfix
`expr LIMIT NUM`, and otherwise hand the expression back. -/
def parseLoop : Nat → Nat → Option Op → List PTok → Option (Option Op × List PTok)
  | 0, _, _, _ => none
  | f + 1, minPrec, lhs, ts =>
    match ts with
    | [] => some (lhs, [])
    | t :: rest =>
      match binFor t with
      | some (mk, p) =>
        if minPrec ≤ p then
          match parseExpr f (p + 1) rest with
          | some (rhs, r) => parseLoop f minPrec (mk lhs rhs) r
          | none => none
        else some (lhs, ts)
      | none =>
        if t = .LIMIT then
          if minPrec ≤ 1 then
            match rest with
            | .NUM n :: rest' => parseLoop f minPrec (Limit n lhs) rest'
            | _ => none
          else some (lhs, ts)
        else some (lhs, ts)

end

/-- `parser.ParseLTL` at the token level: parse a whole token list to an
operator (`none` for a syntax error; the inner option is the parsed
operator, which the semantic actions may have collapsed to nil). -/
def parseLTL (ts : List PTok) : Option (Option Op) :=
  match parseExpr ((ts.length + 2) * (ts.length + 2)) 0 ts with
  | some (e, []) => some e
  | _ => none

/-- The reference-blocking invariant on environments: every binaryNode
in the tree whose rolled-up hasRefs field is set has its rolled-up
matching field clear.  Leaves satisfy it by construction of
`Env.Matching`. -/
def refInv : Env → Bool
  | .binary _ _ l r hasRefs matching =>
    (!(hasRefs && matching)) && refInv l && refInv r
  | _ => true

/-! ### Supporting lemmas -/

/-- `StopAtFirstMatch` nils the continuation whenever the environment it
returns is matching. -/
theorem stopAtFirstMatch_null (p : Option Op × Env)
    (h : (stopAtFirstMatch p).2.Matching = true) :
    (stopAtFirstMatch p).1 = none := by
  unfold stopAtFirstMatch at *
  by_cases hm : p.2.Matching = true
  · simp [hm]
  · simp [hm] at h

/-- `until.Match` steps `Or(u.Right, Then(u.Left, u))` to first match,
exactly as the Go code builds it. -/
theorem until_match_eq (ext : ExtractFn) (f : Nat) (l r : Op) (tok : Tok) :
    MatchOp ext f (.untilOp l r) tok =
      stopAtFirstMatch (MatchOp ext f (.or r (.thenOp l (.untilOp l r))) tok) := rfl

/-- `eventually.Match` steps `Or(e.Child, Next(e))` to first match. -/
theorem eventually_match_eq (ext : ExtractFn) (f : Nat) (c : Op) (tok : Tok) :
    MatchOp ext f (.eventually c) tok =
      stopAtFirstMatch (MatchOp ext f (.or c (.next (.eventually c))) tok) := rfl

/-- `release.Match` steps `Not(Until(Not(left), Not(right)))`. -/
theorem release_match_eq (ext : ExtractFn) (f : Nat) (l r : Op) (tok : Tok) :
    MatchOp ext f (.release l r) tok =
      notCombine f (MatchOp ext f (.untilOp (.not l) (.not r)) tok) := rfl

/-! ### C4 -/

/-- C4 counterexample: the first-match short circuit does not hold
stream-wide.  Stepping EVENTUALLY [ab] over "a","b": step 1 hands back
the continuation OR([b], EVENTUALLY [ab]), whose root is a plain OR
with no StopAtFirstMatch; step 2 on 'b' then emits a matching
environment together with the non-null continuation EVENTUALLY [ab].
So there is a step of a run of EVENTUALLY that pairs a matching
environment with a live continuation. -/
theorem c4_counterexample :
    (runToks smExtract 20 (some (.eventually (.sm "ab" false)))
        [.rune 'a' 0, .rune 'b' 1]).2.Matching = true ∧
    (runToks smExtract 20 (some (.eventually (.sm "ab" false)))
        [.rune 'a' 0, .rune 'b' 1]).1 ≠ none := by decide

/-- C4 as amended: every Match call on an eventually or until node
itself routes through StopAtFirstMatch, so such a call never pairs a
matching environment with a non-null continuation; the guarantee is per
call on those nodes, not stream-wide, because once the child needs more
than one token the continuation escapes the eventually/until
constructor into a plain OR. -/
theorem c4_first_match_short_circuit
    (ext : ExtractFn) (f : Nat) (c l r : Op) (tok : Tok) :
    ((MatchOp ext f (.eventually c) tok).2.Matching = true →
      (MatchOp ext f (.eventually c) tok).1 = none) ∧
    ((MatchOp ext f (.untilOp l r) tok).2.Matching = true →
      (MatchOp ext f (.untilOp l r) tok).1 = none) := by
  constructor
  · rw [eventually_match_eq]
    exact stopAtFirstMatch_null _
  · rw [until_match_eq]
    exact stopAtFirstMatch_null _

/-- Witness for C4 at concrete inputs: EVENTUALLY [a] and [a] UNTIL [b]
match on their first token and indeed return null continuations. -/
theorem c4_first_match_short_circuit_witness :
    ((MatchOp smExtract 20 (.eventually (.sm "a" false)) (.rune 'a' 0)).2.Matching = true ∧
      (MatchOp smExtract 20 (.eventually (.sm "a" false)) (.rune 'a' 0)).1 = none) ∧
    ((MatchOp smExtract 20 (.untilOp (.sm "a" false) (.sm "b" false)) (.rune 'b' 0)).2.Matching = true ∧
      (MatchOp smExtract 20 (.untilOp (.sm "a" false) (.sm "b" false)) (.rune 'b' 0)).1 = none) :=
  ⟨⟨by decide,
    (c4_first_match_short_circuit smExtract 20 (.sm "a" false) (.sm "a" false) (.sm "b" false) (.rune 'a' 0)).1 (by decide)⟩,
   ⟨by decide,
    (c4_first_match_short_circuit smExtract 20 (.sm "a" false) (.sm "a" false) (.sm "b" false) (.rune 'b' 0)).2 (by decide)⟩⟩

/-! ### C5 -/

/-- C5: stepping the operator for `[$a<-] THEN [$a<-]` over the
two-token stream "1","2" terminates (null continuation) with a final
environment that is non-matching and carries an error — the two binders
bind `a` to the differing values "1" and "2" in one combined
environment, a binding conflict. -/
theorem c5_binding_conflict :
    (runToks smExtract 20 (some (.thenOp (.binder "a" false) (.binder "a" false)))
        [.rune '1' 0, .rune '2' 1]).1 = none ∧
    (runToks smExtract 20 (some (.thenOp (.binder "a" false) (.binder "a" false)))
        [.rune '1' 0, .rune '2' 1]).2.Matching = false ∧
    (runToks smExtract 20 (some (.thenOp (.binder "a" false) (.binder "a" false)))
        [.rune '1' 0, .rune '2' 1]).2.Err.isSome = true := by decide

/-! ### C8 -/

/-- C8 counterexample: LIMIT(-1, [a]) does not collapse to a null
operator — the constructor nils only a zero bound — and the resulting
matcher still accepts a token, emitting a matching environment on 'a'. -/
theorem c8_counterexample :
    Limit (-1) (some (.sm "a" false)) = some (.limit (-1) (.sm "a" false)) ∧
    (MatchOp smExtract 20 (.limit (-1) (.sm "a" false)) (.rune 'a' 0)).2.Matching = true := by
  decide

/-- C8 as amended: the Limit constructor collapses to null exactly for a
zero bound (or a null child); negative bounds build a live operator. -/
theorem c8_limit_zero_collapses (n : Int) (c : Op) :
    (Limit n (some c) = none ↔ n = 0) ∧ Limit n (none : Option Op) = none := by
  refine ⟨?_, rfl⟩
  by_cases h : n = 0 <;> simp [Limit, h]

/-! ### C9 -/

/-- C9: the operator constructors normalize null children: Not, Next,
and Eventually of null are null; Then of any null side is null; And and
Or with exactly one null side return the other side unchanged; and
Until(null, b) is b while Until(a, null) is null. -/
theorem c9_null_normalization :
    Not none = none ∧ Next none = none ∧ Eventually none = none ∧
    (∀ b : Option Op, Then none b = none) ∧
    (∀ a : Option Op, Then a none = none) ∧
    (∀ a : Op, And (some a) none = some a) ∧
    (∀ b : Op, And none (some b) = some b) ∧
    (∀ a : Op, Or (some a) none = some a) ∧
    (∀ b : Op, Or none (some b) = some b) ∧
    (∀ b : Option Op, Until none b = b) ∧
    (∀ a : Op, Until (some a) none = none) := by
  refine ⟨rfl, rfl, rfl, fun b => rfl, fun a => ?_, fun a => rfl, fun b => rfl,
    fun a => rfl, fun b => rfl, fun b => rfl, fun a => rfl⟩
  cases a <;> rfl

/-! ### C10 -/

/-- C10: on an end-of-input token, a binder terminates immediately with
a non-matching, non-error BindingNode and a referencer with NotMatching,
in both cases independently of (so without invoking) the host-supplied
extraction function. -/
theorem c10_eoi_terminates
    (ext : ExtractFn) (f : Nat) (name : String) (cap : Bool) (tok : Tok)
    (h : tok.EOI = true) :
    MatchOp ext f (.binder name cap) tok = (none, .leaf false .empty [] []) ∧
    MatchOp ext f (.referencer name cap) tok = (none, .state false) ∧
    (Env.leaf false .empty [] []).Matching = false ∧
    (Env.leaf false .empty [] []).Err = none ∧
    (Env.state false).Matching = false ∧
    (Env.state false).Err = none := by
  cases tok with
  | rune c i => simp [Tok.EOI] at h
  | eoi => exact ⟨rfl, rfl, rfl, rfl, rfl, rfl⟩

/-- Witness for C10 at the end-of-input token. -/
theorem c10_eoi_terminates_witness :
    Tok.EOI .eoi = true ∧
    MatchOp smExtract 20 (.binder "a" false) .eoi = (none, .leaf false .empty [] []) ∧
    MatchOp smExtract 20 (.referencer "a" false) .eoi = (none, .state false) :=
  ⟨rfl, (c10_eoi_terminates smExtract 20 "a" false .eoi rfl).1,
    (c10_eoi_terminates smExtract 20 "a" false .eoi rfl).2.1⟩

/-! ### C2 -/

/-- C2 counterexample: stepping OR([$a<-], NEXT [$b<-]) on token "1",
the left child terminates (with a matching, binding environment) and the
right survives, yet the continuation is the bare surviving child, not
OrEnvironment(finalLeftEnv, survivor). -/
theorem c2_counterexample :
    (MatchOp smExtract 20 (.or (.binder "a" false) (.next (.binder "b" false)))
        (.rune '1' 0)).1 = some (.binder "b" false) ∧
    (MatchOp smExtract 20 (.or (.binder "a" false) (.next (.binder "b" false)))
        (.rune '1' 0)).1 ≠
      OrEnvironment (.leaf true .empty [⟨"a", .str "1"⟩] []) (some (.binder "b" false)) ∧
    (MatchOp smExtract 20 (.binder "a" false) (.rune '1' 0)) =
      (none, .leaf true .empty [⟨"a", .str "1"⟩] []) := by decide

/-- C2 as amended: when neither child environment errors, or.Match
returns the Or of the two children's continuations — so when exactly one
child terminates, the OR devolves to the surviving child's continuation
unwrapped, and the terminated child's environment is ORed only into the
current step's emission. -/
theorem c2_or_devolves
    (ext : ExtractFn) (f : Nat) (l r : Op) (tok : Tok)
    (hl : (MatchOp ext f l tok).2.Err = none)
    (hr : (MatchOp ext f r tok).2.Err = none) :
    MatchOp ext f (.or l r) tok =
      (Or (MatchOp ext f l tok).1 (MatchOp ext f r tok).1,
        EnvOr f (MatchOp ext f l tok).2 (MatchOp ext f r tok).2) := by
  simp only [MatchOp, orCombine, EitherErroring, hl, Option.isSome_none,
    Bool.false_eq_true, if_false, hr]

/-- Witness for C2 as amended, at the counterexample's inputs: the OR
devolves to the bare right continuation. -/
theorem c2_or_devolves_witness :
    MatchOp smExtract 20 (.or (.binder "a" false) (.next (.binder "b" false))) (.rune '1' 0) =
      (Or (MatchOp smExtract 20 (.binder "a" false) (.rune '1' 0)).1
          (MatchOp smExtract 20 (.next (.binder "b" false)) (.rune '1' 0)).1,
        EnvOr 20 (MatchOp smExtract 20 (.binder "a" false) (.rune '1' 0)).2
          (MatchOp smExtract 20 (.next (.binder "b" false)) (.rune '1' 0)).2) :=
  c2_or_devolves smExtract 20 (.binder "a" false) (.next (.binder "b" false))
    (.rune '1' 0) (by decide) (by decide)

/-! ### C3 -/

/-- C3 counterexample: AND([1], [$a<-]) reports reducible() = true (a
BinaryOperator's reducibility is the disjunction of its children's, and
string matchers always report true), yet on token '1' it emits an
environment with the non-empty bindings a↦"1". -/
theorem c3_counterexample :
    ReducibleOp (.and (.sm "1" false) (.binder "a" false)) = true ∧
    envBindings (MatchOp smExtract 20 (.and (.sm "1" false) (.binder "a" false))
        (.rune '1' 0)).2 = [⟨"a", .str "1"⟩] ∧
    (MatchOp smExtract 20 (.and (.sm "1" false) (.binder "a" false))
        (.rune '1' 0)).2.Reducible = false := by decide

/-- C3 as amended: the reducible() predicate does not bound what an
operator emits; it is a syntactic roll-up — the disjunction of the
children's flags for binary operators (AND, OR, THEN, UNTIL, RELEASE),
the child's flag for unary ones, constantly true for string matchers
and constantly false for binders and referencers. -/
theorem c3_reducible_is_disjunction
    (l r c : Op) (n : Int) (s name : String) (cap : Bool) (env : Env) :
    ReducibleOp (.and l r) = (ReducibleOp l || ReducibleOp r) ∧
    ReducibleOp (.or l r) = (ReducibleOp l || ReducibleOp r) ∧
    ReducibleOp (.thenOp l r) = (ReducibleOp l || ReducibleOp r) ∧
    ReducibleOp (.untilOp l r) = (ReducibleOp l || ReducibleOp r) ∧
    ReducibleOp (.release l r) = (ReducibleOp l || ReducibleOp r) ∧
    ReducibleOp (.not c) = ReducibleOp c ∧
    ReducibleOp (.next c) = ReducibleOp c ∧
    ReducibleOp (.limit n c) = ReducibleOp c ∧
    ReducibleOp (.eventually c) = ReducibleOp c ∧
    ReducibleOp (.globally c) = ReducibleOp c ∧
    ReducibleOp (.andEnvironment env c) = ReducibleOp c ∧
    ReducibleOp (.orEnvironment env c) = ReducibleOp c ∧
    ReducibleOp (.sm s cap) = true ∧
    ReducibleOp (.binder name cap) = false ∧
    ReducibleOp (.referencer name cap) = false := by
  refine ⟨rfl, rfl, rfl, rfl, rfl, rfl, rfl, rfl, rfl, rfl, rfl, rfl, rfl, rfl, rfl⟩

/-! ### C1 -/

/-- C1 counterexample: the token stream of `[a] UNTIL [b] THEN [c]` does
not parse to THEN(UNTIL(a, b), c) — THEN binds more tightly than UNTIL
(the parser.y precedence declarations run from loosest to tightest), so
it parses to UNTIL(a, THEN(b, c)), as the repository's own parser test
expects. -/
theorem c1_counterexample :
    parseLTL [.MATCHER (.sm "a" false), .UNTIL, .MATCHER (.sm "b" false),
        .THEN, .MATCHER (.sm "c" false)] ≠
      some (some (.thenOp (.untilOp (.sm "a" false) (.sm "b" false)) (.sm "c" false))) := by
  decide

/-- C1 as amended: the precedence runs NEXT/NOT tightest, then OR/AND,
then THEN/SEQUENCE, then UNTIL/RELEASE, then EVENTUALLY, GLOBALLY and
LIMIT loosest — the reverse of the claimed order.  In particular
`[a] UNTIL [b] THEN [c]` parses to UNTIL(a, THEN(b, c)), and the other
precedence pairings of the repository's parser tests parse accordingly,
for arbitrary matcher subexpressions. -/
theorem c1_precedence (a b c : Op) :
    parseLTL [.MATCHER a, .UNTIL, .MATCHER b, .THEN, .MATCHER c] =
      some (some (.untilOp a (.thenOp b c))) ∧
    parseLTL [.MATCHER a, .THEN, .MATCHER b, .UNTIL, .MATCHER c] =
      some (some (.untilOp (.thenOp a b) c)) ∧
    parseLTL [.MATCHER a, .THEN, .MATCHER b] = some (some (.thenOp a b)) ∧
    parseLTL [.EVENTUALLY, .MATCHER a, .THEN, .MATCHER b] =
      some (some (.eventually (.thenOp a b))) ∧
    parseLTL [.MATCHER a, .THEN, .EVENTUALLY, .MATCHER b, .THEN, .MATCHER c] =
      some (some (.thenOp a (.eventually (.thenOp b c)))) ∧
    parseLTL [.MATCHER a, .THEN, .NOT, .MATCHER b] =
      some (some (.thenOp a (.not b))) ∧
    parseLTL [.NOT, .MATCHER a, .THEN, .MATCHER b] =
      some (some (.thenOp (.not a) b)) ∧
    parseLTL [.NOT, .MATCHER a, .AND, .MATCHER b] =
      some (some (.and (.not a) b)) ∧
    parseLTL [.LPAREN, .EVENTUALLY, .MATCHER a, .RPAREN, .LIMIT, .NUM 10] =
      some (some (.limit 10 (.eventually a))) :=
  ⟨rfl, rfl, rfl, rfl, rfl, rfl, rfl, rfl, rfl⟩

theorem charListCompare_self (cs : List Char) : charListCompare cs cs = .eq := by
  induction cs with
  | nil => rfl
  | cons a as ih => simp [charListCompare, ih]

theorem compareValues_self (v : BVal) : v.compareValues v = .ok 0 := by
  cases v with
  | str s => simp [BVal.compareValues, strCompare, charListCompare_self]
  | int n => simp [BVal.compareValues]

theorem eqB_self (bs : Bindings) : eqB bs bs = true := by
  induction bs with
  | nil => rfl
  | cons b rest ih => simp [eqB, compareValues_self, ih]

theorem combine_self (bs : Bindings) : Combine bs bs = .ok bs := by
  simp [Combine, eqB_self]

theorem combine_nil_right (bs : Bindings) : Combine bs [] = .ok bs := by
  cases bs <;> simp [Combine, eqB]

theorem combine_nil_left (bs : Bindings) : Combine [] bs = .ok bs := by
  simp [Combine]

example (f : Nat) : orE (f + 1) (.state false) (.state true) = .state true := rfl

theorem applyB_bound_self (f : Nat) (caps : Captures) (bs : Bindings) :
    applyB (f + 1) bs (.leaf true caps bs []) = .leaf true caps bs [] := by
  by_cases h : bs.isEmpty <;> simp [applyB, h, combine_self, eqB_self]

theorem applyB_nil_bound (f : Nat) (caps : Captures) (bs : Bindings) :
    applyB (f + 1) bs (.leaf true caps [] []) = .leaf true caps bs [] := by
  cases bs with
  | nil => simp [applyB]
  | cons hd tl => simp [applyB, combine_nil_left, eqB]

theorem orE_leaf_pair (f : Nat) (bs : Bindings) :
    orE (f + 2) (.leaf true .empty bs []) (.leaf true .empty [] []) =
      .leaf true .empty bs [] := by
  cases bs with
  | nil => rfl
  | cons hd tl =>
    simp [orE, EitherErroring, Env.Err, Reduce, Env.Reducible, Env.Matching,
      envBindings, combine_nil_right, applyB_bound_self, applyB_nil_bound,
      mergeEnv, eqB_self, eqB, compareValues_self, Captures.union, unionToks,
      Captures.empty, Captures.Reducible]

theorem andE_leaf_pair (f : Nat) (bs : Bindings) :
    andE (f + 2) (.leaf true .empty bs []) (.leaf true .empty [] []) =
      .leaf true .empty bs [] := by
  cases bs with
  | nil => rfl
  | cons hd tl =>
    simp [andE, EitherErroring, Env.Err, Reduce, Env.Reducible, Env.Matching,
      envBindings, combine_nil_right, applyB_bound_self, applyB_nil_bound,
      mergeEnv, eqB_self, eqB, compareValues_self, Captures.union, unionToks,
      Captures.empty, Captures.Reducible]


theorem orE_leaf_pair20 (bs : Bindings) :
    orE 20 (.leaf true .empty bs []) (.leaf true .empty [] []) =
      .leaf true .empty bs [] := orE_leaf_pair 18 bs

theorem andE_leaf_pair20 (bs : Bindings) :
    andE 20 (.leaf true .empty bs []) (.leaf true .empty [] []) =
      .leaf true .empty bs [] := andE_leaf_pair 18 bs

theorem cap_inv_empty : Captures.empty.inv = Captures.empty := rfl

theorem notE_after_and (bs : Bindings) :
    notE 20 (andE 20 (.leaf false .empty bs []) (.leaf false .empty [] [])) =
      .leaf true .empty bs [] := by
  cases bs with
  | nil => rfl
  | cons hd tl =>
    have h19 : orE 19 (.leaf true .empty (hd :: tl) []) (.leaf true .empty [] []) =
        .leaf true .empty (hd :: tl) [] := orE_leaf_pair 17 (hd :: tl)
    simp [andE, EitherErroring, Env.Err, Reduce, Env.Reducible, Env.Matching,
      envBindings, combine_nil_left, applyB, mergeEnv, eqB, hasReferences,
      notE, andNode, orNode, cap_inv_empty, Captures.Reducible, h19]

theorem notE_after_or (bs : Bindings) :
    notE 20 (orE 20 (.leaf false .empty bs []) (.leaf false .empty [] [])) =
      .leaf true .empty bs [] := by
  cases bs with
  | nil => rfl
  | cons hd tl =>
    simp [orE, EitherErroring, Env.Err, Reduce, Env.Reducible, Env.Matching,
      notE, cap_inv_empty, Captures.Reducible]

/-- C6 as amended: De Morgan's equivalence does hold when both children
resolve together on the first token with leaf environments of the
binder/wildcard form: for any host extraction function and any
non-end-of-input token, OR([$a<-], [.]) and NOT(AND(NOT [$a<-], NOT [.]))
return the very same (null) continuation and the very same environment —
matching, carrying the extracted bindings — and dually for
AND([$a<-], [.]) against NOT(OR(NOT [$a<-], NOT [.])). -/
theorem c6_demorgan_terminal
    (ext : ExtractFn) (bs : Bindings) (tok : Tok)
    (hEoi : tok.EOI = false) (hExt : ext "a" tok = .ok bs) :
    MatchOp ext 20 (.or (.binder "a" false) (.sm "." false)) tok =
      (none, .leaf true .empty bs []) ∧
    MatchOp ext 20 (.not (.and (.not (.binder "a" false)) (.not (.sm "." false)))) tok =
      (none, .leaf true .empty bs []) ∧
    MatchOp ext 20 (.and (.binder "a" false) (.sm "." false)) tok =
      (none, .leaf true .empty bs []) ∧
    MatchOp ext 20 (.not (.or (.not (.binder "a" false)) (.not (.sm "." false)))) tok =
      (none, .leaf true .empty bs []) := by
  cases tok with
  | eoi => simp [Tok.EOI] at hEoi
  | rune c i =>
    have hb : binderMatch ext "a" false (.rune c i) =
        (none, .leaf true .empty bs []) := by
      simp [binderMatch, Tok.EOI, hExt]
    have hs : smMatch "." false (.rune c i) =
        (none, .leaf true .empty [] []) := rfl
    refine ⟨?_, ?_, ?_, ?_⟩
    · simp only [MatchOp]
      rw [hb, hs]
      simp [orCombine, EitherErroring, Env.Err, Or, EnvOr, orE_leaf_pair20]
    · simp only [MatchOp]
      rw [hb, hs]
      simp [notCombine, Not, notE, cap_inv_empty, EitherErroring, Env.Err,
        EnvAnd, AndEnvironment, notE_after_and]
    · simp only [MatchOp]
      rw [hb, hs]
      simp [EitherErroring, Env.Err, EnvAnd, AndEnvironment, andE_leaf_pair20]
    · simp only [MatchOp]
      rw [hb, hs]
      simp [notCombine, Not, notE, cap_inv_empty, orCombine, EitherErroring,
        Env.Err, Or, EnvOr, notE_after_or]

/-- C6 counterexample: already on literal (binding-free) subexpressions
the step-level equivalence fails once one child of OR terminates before
the other.  On the stream "1","3", OR([1], NEXT [2]) is non-matching at
step 2 (the OR devolved to the surviving child, forgetting [1]'s match),
while NOT(AND(NOT [1], NOT NEXT [2])) is matching there. -/
theorem c6_counterexample :
    (runToks smExtract 20 (some (.or (.sm "1" false) (.next (.sm "2" false))))
        [.rune '1' 0, .rune '3' 1]).2.Matching = false ∧
    (runToks smExtract 20
        (some (.not (.and (.not (.sm "1" false)) (.not (.next (.sm "2" false))))))
        [.rune '1' 0, .rune '3' 1]).2.Matching = true := by decide

/-- Witness for C6 as amended, at the string matcher generator's
extraction function and a concrete token. -/
theorem c6_demorgan_terminal_witness :
    Tok.EOI (.rune 'x' 0) = false ∧
    smExtract "a" (.rune 'x' 0) = .ok [⟨"a", .str "x"⟩] ∧
    MatchOp smExtract 20 (.or (.binder "a" false) (.sm "." false)) (.rune 'x' 0) =
      (none, .leaf true .empty [⟨"a", .str "x"⟩] []) ∧
    MatchOp smExtract 20
        (.not (.and (.not (.binder "a" false)) (.not (.sm "." false)))) (.rune 'x' 0) =
      (none, .leaf true .empty [⟨"a", .str "x"⟩] []) :=
  ⟨rfl, rfl,
    (c6_demorgan_terminal smExtract [⟨"a", .str "x"⟩] (.rune 'x' 0) rfl rfl).1,
    (c6_demorgan_terminal smExtract [⟨"a", .str "x"⟩] (.rune 'x' 0) rfl rfl).2.1⟩

theorem eitherErroring_mem {a b e : Env} (h : EitherErroring a b = some e) :
    e = a ∨ e = b := by
  unfold EitherErroring at h
  by_cases ha : a.Err.isSome = true
  · simp [ha] at h
    exact .inl h.symm
  · by_cases hb : b.Err.isSome = true <;> simp [ha, hb] at h
    exact .inr h.symm

theorem reduce_mem {l r red : Env} {m : Bool} (h : Reduce l r m = some red) :
    red = l ∨ red = r := by
  unfold Reduce at h
  by_cases hl : (l.Reducible && l.Matching == m) = true
  · simp [hl] at h
    exact .inr h.symm
  · by_cases hr : (r.Reducible && r.Matching == m) = true <;> simp [hl, hr] at h
    exact .inl h.symm


theorem refInv_mergeEnv : ∀ (a b m : Env), mergeEnv a b = some m →
    refInv a = true → refInv b = true → refInv m = true := by
  intro a
  induction a with
  | state s =>
    intro b m h _ _
    cases b <;> simp [mergeEnv] at h
  | err msg =>
    intro b m h _ _
    cases b <;> simp [mergeEnv] at h
  | leaf mg caps bound referenced =>
    intro b m h _ _
    cases b <;> simp [mergeEnv] at h
    obtain ⟨-, he⟩ := h
    rw [← he]
    rfl
  | binary t bnd l r hr mg ihl ihr =>
    intro b m h h1 h2
    cases b with
    | binary t' bnd' l' r' hr' mg' =>
      simp only [mergeEnv] at h
      simp only [refInv, Bool.and_eq_true] at h1 h2
      by_cases hc : (t == t' && mg == mg' && hr == hr' && eqB bnd bnd') = true
      swap
      · rw [if_neg hc] at h
        exact absurd h (by simp)
      rw [if_pos hc] at h
      rcases hll : mergeEnv l l' with _ | nl <;> rcases hrr : mergeEnv r r' with _ | nr <;>
        rw [hll, hrr] at h <;> simp only [] at h
      case' pos.some.some =>
        obtain he := Option.some.inj h
        rw [← he]
        simp only [refInv, Bool.and_eq_true]
        exact ⟨⟨h1.1.1, ihl l' nl hll h1.1.2 h2.1.2⟩, ihr r' nr hrr h1.2 h2.2⟩
      all_goals
        rcases hlr : mergeEnv l r' with _ | nl2 <;> rcases hrl : mergeEnv r l' with _ | nr2 <;>
          rw [hlr, hrl] at h <;> simp only [] at h <;>
            first
            | exact Option.noConfusion h
            | (obtain he := Option.some.inj h
               rw [← he]
               simp only [refInv, Bool.and_eq_true]
               exact ⟨⟨h1.1.1, ihl r' nl2 hlr h1.1.2 h2.2⟩, ihr l' nr2 hrl h1.2 h2.1.2⟩)
    | state s => simp [mergeEnv] at h
    | err msg => simp [mergeEnv] at h
    | leaf a b c d => simp [mergeEnv] at h

theorem refInv_algebra : ∀ f : Nat,
    (∀ l r, refInv l = true → refInv r = true → refInv (andE f l r) = true) ∧
    (∀ l r, refInv l = true → refInv r = true → refInv (orE f l r) = true) ∧
    (∀ b e, refInv e = true → refInv (applyB f b e) = true) := by
  intro f
  induction f with
  | zero => exact ⟨fun _ _ _ _ => rfl, fun _ _ _ _ => rfl, fun _ _ _ => rfl⟩
  | succ f ih =>
    obtain ⟨ihAnd, ihOr, ihApply⟩ := ih
    have happly : ∀ b e, refInv e = true → refInv (applyB (f + 1) b e) = true := by
      intro b e he
      cases e with
      | state s => rfl
      | err m => rfl
      | leaf mg caps bound referenced =>
        simp only [applyB]
        (repeat' split) <;> rfl
      | binary t bnd l r hrf mg =>
        simp only [applyB]
        simp only [refInv, Bool.and_eq_true] at he
        by_cases ht : (t == orNode) = true <;> simp only [ht, if_pos, if_neg,
          Bool.false_eq_true, if_false, if_true]
        · exact ihOr _ _ (ihApply b l he.1.2) (ihApply b r he.2)
        · exact ihAnd _ _ (ihApply b l he.1.2) (ihApply b r he.2)
    refine ⟨?_, ?_, happly⟩
    · intro l r hl hr
      simp only [andE]
      rcases hee : EitherErroring l r with _ | e
      · rcases hred : Reduce l r true with _ | red
        · rcases hcomb : Combine (envBindings l) (envBindings r) with e2 | newB
          · simp only []
            rfl
          · rcases hmem : mergeEnv (applyB f newB l) (applyB f newB r) with _ | m
            · simp only [hmem, refInv, Bool.and_eq_true]
              refine ⟨⟨?_, ihApply newB l hl⟩, ihApply newB r hr⟩
              by_cases hrf : (hasReferences (applyB f newB l) ||
                  hasReferences (applyB f newB r)) = true <;> simp [hrf]
            · simp only [hmem]
              exact refInv_mergeEnv _ _ m hmem (ihApply newB l hl) (ihApply newB r hr)
        · simp only []
          rcases reduce_mem hred with h | h <;> rw [h]
          · exact hl
          · exact hr
      · simp only []
        rcases eitherErroring_mem hee with h | h <;> rw [h]
        · exact hl
        · exact hr
    · intro l r hl hr
      simp only [orE]
      rcases hee : EitherErroring l r with _ | e
      · rcases hred : Reduce l r false with _ | red
        · rcases hcomb : Combine (envBindings l) (envBindings r) with e2 | newB
          · simp only []
            rfl
          · rcases hmem : mergeEnv (applyB f newB l) (applyB f newB r) with _ | m
            · simp only [hmem, refInv, Bool.and_eq_true]
              refine ⟨⟨?_, ihApply newB l hl⟩, ihApply newB r hr⟩
              by_cases hrf : (hasReferences (applyB f newB l) ||
                  hasReferences (applyB f newB r)) = true <;> simp [hrf]
            · simp only [hmem]
              exact refInv_mergeEnv _ _ m hmem (ihApply newB l hl) (ihApply newB r hr)
        · simp only []
          rcases reduce_mem hred with h | h <;> rw [h]
          · exact hl
          · exact hr
      · simp only []
        rcases eitherErroring_mem hee with h | h <;> rw [h]
        · exact hl
        · exact hr

theorem refInv_notE : ∀ (f : Nat) (e : Env), refInv e = true →
    refInv (notE f e) = true := by
  intro f
  induction f with
  | zero => intro e _; rfl
  | succ f ih =>
    intro e he
    cases e with
    | state s => rfl
    | err m => rfl
    | leaf mg caps bound referenced => rfl
    | binary t bnd l r hrf mg =>
      simp only [notE]
      simp only [refInv, Bool.and_eq_true] at he
      by_cases ht : (t == orNode) = true <;> simp only [ht, Bool.false_eq_true,
        if_false, if_true]
      · exact (refInv_algebra f).1 _ _ (ih l he.1.2) (ih r he.2)
      · exact (refInv_algebra f).2.1 _ _ (ih l he.1.2) (ih r he.2)

/-- C7: any environment with non-empty references reports matching() =
false — it holds by construction for leaf BindingNodes, is preserved by
the environment And/Or/Not combinators and by applyBindings (all as an
invariant `refInv` on the rolled-up fields of every binaryNode), and a
node whose rolled-up hasRefs is true and that satisfies the invariant
has matching() = false. -/
theorem c7_reference_blocking :
    (∀ (mg : Bool) (caps : Captures) (bound referenced : Bindings),
      refInv (.leaf mg caps bound referenced) = true ∧
      (hasReferences (.leaf mg caps bound referenced) = true →
        (Env.leaf mg caps bound referenced).Matching = false)) ∧
    (∀ (f : Nat) (l r : Env), refInv l = true → refInv r = true →
      refInv (EnvAnd f l r) = true ∧ refInv (EnvOr f l r) = true) ∧
    (∀ (f : Nat) (e : Env), refInv e = true → refInv (notE f e) = true) ∧
    (∀ (f : Nat) (b : Bindings) (e : Env), refInv e = true →
      refInv (applyB f b e) = true) ∧
    (∀ e : Env, refInv e = true → hasReferences e = true →
      e.Matching = false) := by
  refine ⟨?_, ?_, refInv_notE, fun f b e he => (refInv_algebra f).2.2 b e he, ?_⟩
  · intro mg caps bound referenced
    refine ⟨rfl, ?_⟩
    intro h
    simp only [hasReferences, gt_iff_lt, decide_eq_true_eq] at h
    simp [Env.Matching, h]
  · intro f l r hl hr
    constructor
    · unfold EnvAnd
      cases l with
      | err m => exact hl
      | leaf a b c d => exact (refInv_algebra f).1 _ _ hl hr
      | binary a b c d e g => exact (refInv_algebra f).1 _ _ hl hr
      | state s =>
        cases r with
        | err m => exact hr
        | state t => by_cases hs : s = true <;> simp [Env.Err, hs, refInv]
        | leaf a b c d => exact (refInv_algebra f).1 _ _ hr hl
        | binary a b c d e g => exact (refInv_algebra f).1 _ _ hr hl
    · unfold EnvOr
      cases l with
      | err m => exact hl
      | leaf a b c d => exact (refInv_algebra f).2.1 _ _ hl hr
      | binary a b c d e g => exact (refInv_algebra f).2.1 _ _ hl hr
      | state s =>
        cases r with
        | err m => exact hr
        | state t => by_cases ht : t = true <;> simp [EitherErroring, Env.Err, ht, refInv]
        | leaf a b c d => exact (refInv_algebra f).2.1 _ _ hr hl
        | binary a b c d e g => exact (refInv_algebra f).2.1 _ _ hr hl
  · intro e he h
    cases e with
    | state s => simp [hasReferences] at h
    | err m => simp [hasReferences] at h
    | leaf mg caps bound referenced =>
      simp only [hasReferences, gt_iff_lt, decide_eq_true_eq] at h
      simp [Env.Matching, h]
    | binary t bnd l r hrf mg =>
      simp only [hasReferences] at h
      simp only [refInv, Bool.and_eq_true] at he
      simp only [Env.Matching]
      have := he.1.1
      rw [h] at this
      simpa using this

/-- Witness for C7 at concrete inputs: a leaf with a reference never
matches, and the combinators preserve the invariant on concrete
reference-bearing environments. -/
theorem c7_reference_blocking_witness :
    (refInv (.leaf true .empty [] [⟨"a", .str "1"⟩]) = true ∧
      (hasReferences (.leaf true .empty [] [⟨"a", .str "1"⟩]) = true →
        (Env.leaf true .empty [] [⟨"a", .str "1"⟩]).Matching = false)) ∧
    refInv (EnvAnd 20 (.leaf true .empty [] [⟨"a", .str "1"⟩])
      (.leaf true .empty [⟨"b", .str "2"⟩] [])) = true ∧
    (Env.leaf true .empty [] [⟨"a", .str "1"⟩]).Matching = false :=
  ⟨c7_reference_blocking.1 true .empty [] [⟨"a", .str "1"⟩],
   (c7_reference_blocking.2.1 20 (.leaf true .empty [] [⟨"a", .str "1"⟩])
      (.leaf true .empty [⟨"b", .str "2"⟩] []) (by decide) (by decide)).1,
   c7_reference_blocking.2.2.2.2 (.leaf true .empty [] [⟨"a", .str "1"⟩])
      (by decide) (by decide)⟩

end LtlGo
